import Mathlib

/-
Verification of the Phon_query_to_csv pipeline (src/Phon_query_to_csv.py).

The pipeline stages modelled here:
  - gen_csv       : per-file normalisation (renames, metadata columns, derived
                    columns split out of the Result field),
  - merge_csv     : header-once concatenation of the staged files,
  - calculate_accuracy : Accuracy / Deletion / Substitution indicator columns,
  - column_match  : schema alignment against a (canonical, actual) column key.

A pandas DataFrame is modelled as an ordered list of named columns whose cells
are Option String (none models NaN).  Python string operations are modelled on
List Char, which matches Python single-character-separator split semantics.
Fallible steps (KeyError, IndexError, the pandas duplicate-label reindex
ValueError, the int-vs-list TypeError in validation) return Except String.
-/

set_option maxRecDepth 10000

namespace Phon

/-! ## Python string primitives (on List Char) -/
/-- Python str.split(sep) for a single-character separator: auxiliary
accumulator form.  Empty fields are preserved, as in Python. -/
def splitChAux (sep : Char) : List Char → List Char → List (List Char)
  | [], acc => [acc.reverse]
  | c :: rest, acc =>
    if c = sep then acc.reverse :: splitChAux sep rest []
    else splitChAux sep rest (c :: acc)

/-- Python str.split(sep) for a single-character separator. -/
def splitCh (sep : Char) (l : List Char) : List (List Char) :=
  splitChAux sep l []

/-- Python str.split(sep, 1): split at the first separator occurrence only. -/
def splitCh1Aux (sep : Char) : List Char → List Char → List (List Char)
  | [], acc => [acc.reverse]
  | c :: rest, acc =>
    if c = sep then [acc.reverse, rest]
    else splitCh1Aux sep rest (c :: acc)

/-- Python str.split(sep, 1). -/
def splitCh1 (sep : Char) (l : List Char) : List (List Char) :=
  splitCh1Aux sep l []

/-- Python str.strip() whitespace set (space, tab, newline, CR, VT, FF). -/
def isPySpace (c : Char) : Bool :=
  c = ' ' || c = '\t' || c = '\n' || c = '\r' || c = '\x0b' || c = '\x0c'

/-- Python str.strip(). -/
def stripCh (l : List Char) : List Char :=
  ((l.dropWhile isPySpace).reverse.dropWhile isPySpace).reverse

/-- Python substring containment test (the `in` operator on str). -/
def isInfixCh (needle hay : List Char) : Bool :=
  hay.tails.any (fun t => needle.isPrefixOf t)

/-- Python list indexing l[i]: raises IndexError when out of range. -/
def pyIdx {α : Type} (l : List α) (i : Nat) : Except String α :=
  match l.get? i with
  | some a => .ok a
  | none => .error "IndexError: list index out of range"

/-! ## Tables (pandas DataFrames) -/
/-- A pandas DataFrame: ordered named columns of cells; none models NaN.
nrows is the length of the frame's row index (used when reindexing appends
an entirely empty column). -/
structure Table where
  cols : List (String × List (Option String))
  nrows : Nat
deriving DecidableEq, Repr

/-- The column labels of a table, in order. -/
def Table.names (t : Table) : List String := t.cols.map Prod.fst

/-- pandas DataFrame.rename(columns={old: new}): every column labelled old is
relabelled new; data and order are untouched; absent labels are a no-op. -/
def renameCol (old new : String) (t : Table) : Table :=
  ⟨t.cols.map (fun c => if c.1 = old then (new, c.2) else c), t.nrows⟩

/-- pandas df[name] = data: overwrite every column labelled name, or append a
new column at the right end when the label is absent. -/
def setColData (name : String) (data : List (Option String)) (t : Table) : Table :=
  if t.cols.any (fun c => c.1 == name) then
    ⟨t.cols.map (fun c => if c.1 == name then (c.1, data) else c), t.nrows⟩
  else
    ⟨t.cols ++ [(name, data)], t.nrows⟩

/-- pandas df[name] = scalar: broadcast the scalar over the row index. -/
def setCol (name : String) (v : Option String) (t : Table) : Table :=
  setColData name (List.replicate t.nrows v) t

/-- pandas df[name] read as a Series: KeyError when absent, and an error when
the label is duplicated (code paths using it then fail on the result). -/
def getColUnique (name : String) (t : Table) : Except String (List (Option String)) :=
  match t.cols.filter (fun c => c.1 == name) with
  | [c] => .ok c.2
  | [] => .error "KeyError"
  | _ => .error "duplicate column label"

/-- pandas df[name] = df[name].map-like transform of a single column's cells. -/
def mapColUnique (name : String) (g : Option String → Option String) (t : Table) :
    Except String Table :=
  match t.cols.filter (fun c => c.1 == name) with
  | [_] => .ok ⟨t.cols.map (fun c => if c.1 == name then (c.1, c.2.map g) else c), t.nrows⟩
  | [] => .error "KeyError"
  | _ => .error "duplicate column label"

/-- Sequencing of fallible steps (Python statement sequence with exceptions). -/
def andThen {α β : Type} (x : Except String α) (f : α → Except String β) :
    Except String β :=
  match x with
  | .error e => .error e
  | .ok a => f a

/-! ## Schema Aligner: column_match (src/Phon_query_to_csv.py lines 494-598) -/
/-- One iteration of the rename loop in column_match: a pair is
(canonical name, actual name); an empty actual name is skipped, and a pair
whose two names differ renames the actual name to the canonical one. -/
def renameStep (t : Table) (p : String × String) : Table :=
  if p.2 = "" then t
  else if p.1 ≠ p.2 then renameCol p.2 p.1 t
  else t

/-- The sequential rename loop of column_match over zip(target_cols, actual_cols). -/
def renameLoop (pairs : List (String × String)) (t : Table) : Table :=
  pairs.foldl renameStep t

/-- Action of one rename-loop iteration on a single column label. -/
def nameStep (n : String) (p : String × String) : String :=
  if p.2 = "" then n
  else if p.1 ≠ p.2 then (if n = p.2 then p.1 else n)
  else n

/-- Action of the whole sequential rename loop on a single column label. -/
def applyRenames (pairs : List (String × String)) (n : String) : String :=
  pairs.foldl nameStep n

/-- The reindexed table: for each requested label, the first column carrying
it, or an entirely empty (all-NaN) column when the label is absent. -/
def mkReindexed (cols : List String) (t : Table) : Table :=
  ⟨cols.map (fun c => (c,
      match t.cols.find? (fun p => p.1 == c) with
      | some p => p.2
      | none => List.replicate t.nrows none)), t.nrows⟩

/-- pandas DataFrame.reindex(columns=cols): returns the frame unchanged when
the labels already coincide, selects/fills columns when the current labels
are unique, and raises ValueError on a duplicate axis (pandas GH#42568). -/
def reindex (cols : List String) (t : Table) : Except String Table :=
  if t.names = cols then .ok t
  else if t.names.Nodup then .ok (mkReindexed cols t)
  else .error "ValueError: cannot reindex on an axis with duplicate labels"

/-- The validation for-loop of column_match: walks enumerate(zip(columns,
target_cols)) and clears the valid flag on a mismatch at an index below
len(target_cols) (the else arm only prints). -/
def validLoopGo (tlen : Nat) : Nat → List (String × String) → Bool → Bool
  | _, [], v => v
  | i, p :: rest, v =>
    validLoopGo tlen (i + 1) rest
      (if p.1 ≠ p.2 then (if i < tlen then false else v) else v)

/-- The validation block of column_match.  When the realigned column list is
not equal to target_cols the code evaluates len(columns) < target_cols,
an int-vs-list comparison, which raises TypeError in Python 3. -/
def validate (nt : Table) (target_cols : List String) : Except String Bool :=
  if nt.names = target_cols then
    .ok (validLoopGo target_cols.length 0 (nt.names.zip target_cols) true)
  else
    .error "TypeError: '<' not supported between instances of 'int' and 'list'"

/-- column_match: computes the omitted/added diagnostics from the original
column labels, runs the sequential rename loop, reindexes to target_cols,
validates, and returns the realigned table (the table that is then written
to the output csv) together with the validity flag and the two diagnostics. -/
def column_match (target_cols actual_cols : List String) (t : Table) :
    Except String (Table × Bool × List String × List String) :=
  let omitted := t.names.filter (fun c => !(actual_cols.contains c))
  let added := actual_cols.filter (fun c => !(t.names.contains c))
  andThen (reindex target_cols (renameLoop (target_cols.zip actual_cols) t)) fun nt =>
  andThen (validate nt target_cols) fun valid =>
  .ok (nt, valid, omitted, added)

/-- The label n is the actual-name source of the non-trivial rename pair p. -/
def specCond (n : String) (p : String × String) : Bool :=
  !(p.2 == "") && !(p.1 == p.2) && p.2 == n

/-- Modelled from the spec: step 3 of the Schema Aligner renames each column
whose actual-name entry is non-empty and differs from its canonical-name
entry to the canonical name.  This is a simultaneous per-label substitution
(the first applicable pair wins), contrasted below with the sequential
rename loop of the code. -/
def specRename (pairs : List (String × String)) (n : String) : String :=
  ((pairs.find? (specCond n)).map Prod.fst).getD n

/-- Modelled from the spec: steps 3-4 of the Schema Aligner, a simultaneous
rename followed by a reindex to exactly the canonical column order. -/
def column_match_spec (target_cols actual_cols : List String) (t : Table) : Table :=
  mkReindexed target_cols
    ⟨t.cols.map (fun c => (specRename (target_cols.zip actual_cols) c.1, c.2)), t.nrows⟩

/-- No canonical destination of a non-trivial rename pair coincides with the
actual-name source of any non-trivial rename pair: under this condition the
sequential rename loop cannot chain one rename into another. -/
def noInterference (pairs : List (String × String)) : Prop :=
  ∀ p ∈ pairs, p.2 ≠ "" → p.1 ≠ p.2 →
    ∀ q ∈ pairs, q.2 ≠ "" → q.1 ≠ q.2 → p.1 ≠ q.2

instance (pairs : List (String × String)) : Decidable (noInterference pairs) := by
  unfold noInterference
  infer_instance

instance {α : Type} [DecidableEq α] : DecidableEq (Except String α) := fun x y =>
  match x, y with
  | .error a, .error b =>
    if h : a = b then .isTrue (by rw [h])
    else .isFalse (by intro hc; cases hc; exact h rfl)
  | .ok a, .ok b =>
    if h : a = b then .isTrue (by rw [h])
    else .isFalse (by intro hc; cases hc; exact h rfl)
  | .error _, .ok _ => .isFalse (by intro hc; cases hc)
  | .ok _, .error _ => .isFalse (by intro hc; cases hc)

/-- The worked table of the spec scenario: source columns A (with data) and X
(with data), one row. -/
def exTable : Table := ⟨[("A", [some "a1"]), ("X", [some "x1"])], 1⟩

/-- The aligned result for exTable under canonical A,B,C / actual A,X,empty. -/
def exAligned : Table :=
  ⟨[("A", [some "a1"]), ("B", [some "x1"]), ("C", [(none : Option String)])], 1⟩

/-- The table that breaks the universal form of C2: a key swapping two
column names makes the sequential rename loop produce duplicate labels. -/
def exSwap : Table := ⟨[("A", [some "a"]), ("B", [some "b"])], 1⟩

/-- The table that breaks idempotence: its single column B is renamed to the
canonical name A on the first pass, and on the second pass the empty column
B added by the first pass is renamed to A as well, producing a duplicate
axis. -/
def cxTable : Table := ⟨[("B", [some "x"])], 1⟩

/-! ## Accuracy Deriver: calculate_accuracy (lines 451-491) -/
/-- accurate_mask: IPA Target == IPA Actual; pandas equality with NaN on
either side is False. -/
def accurate_mask (tgt act : Option String) : Bool :=
  match tgt, act with
  | some a, some b => a == b
  | _, _ => false

/-- inaccurate_mask: IPA Target != IPA Actual; pandas inequality with NaN on
either side is True. -/
def inaccurate_mask (tgt act : Option String) : Bool :=
  match tgt, act with
  | some a, some b => a != b
  | _, _ => true

/-- deletion_mask: IPA Actual isin [NaT, empty, single space, null phone] or
isnull; the NaT entry only matches missing values, which isnull covers. -/
def deletion_mask (act : Option String) : Bool :=
  match act with
  | none => true
  | some s => s == "" || s == " " || s == "∅"

/-- substitution_mask: a mismatch that is not a deletion case. -/
def substitution_mask (tgt act : Option String) : Bool :=
  inaccurate_mask tgt act && !(deletion_mask act)

/-- The Accuracy cell of a row: initialised to 0, set to 1 on accurate_mask. -/
def rowAccuracy (tgt act : Option String) : Nat :=
  if accurate_mask tgt act then 1 else 0

/-- The Deletion cell of a row: initialised to 0, set to 1 on deletion_mask. -/
def rowDeletion (act : Option String) : Nat :=
  if deletion_mask act then 1 else 0

/-- The Substitution cell of a row: initialised to 0, set to 1 on
substitution_mask. -/
def rowSubstitution (tgt act : Option String) : Nat :=
  if substitution_mask tgt act then 1 else 0

/-- calculate_accuracy: reads the IPA Target and IPA Actual columns and adds
the three indicator columns (serialised as decimal strings in the csv the
deriver writes). -/
def calculate_accuracy (t : Table) : Except String Table :=
  andThen (getColUnique "IPA Target" t) fun tgts =>
  andThen (getColUnique "IPA Actual" t) fun acts =>
  let rows := tgts.zip acts
  .ok (setColData "Substitution" (rows.map (fun p => some (toString (rowSubstitution p.1 p.2))))
      (setColData "Deletion" (rows.map (fun p => some (toString (rowDeletion p.2))))
      (setColData "Accuracy" (rows.map (fun p => some (toString (rowAccuracy p.1 p.2)))) t)))

/-! ## Merger: merge_csv (lines 318-447) -/
/-- merge_csv concatenation: for each selected staged file in order, the
first file is copied whole and every later file is copied after discarding
its first line (readline before copyfileobj).  Files are modelled as lists
of lines. -/
def merge_csv (files : List (List String)) : List String :=
  (files.enum.map (fun p => if p.1 = 0 then p.2 else p.2.drop 1)).flatten

/-! ## Normalizer: gen_csv per-file processing (lines 161-305) -/
/-- The run configuration of gen_csv.  The regex searches are supplied by the
interactive flavor selection (participant_regex / phase_regex) or are fixed
in the file (the analysis alternation); each is modelled as the function
giving the re.findall match list on its input string.  ipaWordsSearch models
the hard-coded re.search for the IPA Alignment Words field (group(0) of the
first match, when any); no verified claim depends on its value, and the strip
and final-character slice applied to the match are kept in the model. -/
structure Config where
  query : String
  analysisMatches : String → List String
  phaseMatches : String → List String
  participantMatches : String → List String
  ipaWordsSearch : String → Option String

/-- Result-field derivation for 'IPA Alignment': split(';', 1)[0].strip(). -/
def fIPAAlignment (l : List Char) : Except String (List Char) :=
  andThen (pyIdx (splitCh1 ';' l) 0) fun a => .ok (stripCh a)

/-- Result-field derivation for 'Tiers': split(';', 1)[1].strip(). -/
def fTiers (l : List Char) : Except String (List Char) :=
  andThen (pyIdx (splitCh1 ';' l) 1) fun a => .ok (stripCh a)

/-- Result-field derivation for 'Notes': split(';', 1)[1] then the last
arrow-separated token with its first three characters removed. -/
def fNotes (l : List Char) : Except String (List Char) :=
  andThen (pyIdx (splitCh1 ';' l) 1) fun a =>
    .ok (((splitCh '↔' a).getLastD []).drop 3)

/-- Result-field derivation for 'Orthography': split(';', 1)[1].split(',')[0].strip(). -/
def fOrthography (l : List Char) : Except String (List Char) :=
  andThen (pyIdx (splitCh1 ';' l) 1) fun a =>
  andThen (pyIdx (splitCh ',' a) 0) fun b => .ok (stripCh b)

/-- Result-field derivation for 'IPA Target Words'. -/
def fIPATargetWords (l : List Char) : Except String (List Char) :=
  andThen (pyIdx (splitCh1 ';' l) 1) fun a =>
  andThen (pyIdx (splitCh ',' a) 1) fun b => .ok (stripCh b)

/-- Result-field derivation for 'IPA Actual Words'. -/
def fIPAActualWords (l : List Char) : Except String (List Char) :=
  andThen (pyIdx (splitCh1 ';' l) 1) fun a =>
  andThen (pyIdx (splitCh ',' a) 2) fun b => .ok (stripCh b)

/-- Result-field derivation for 'IPA Alignment Words': regex search, then
group(0).strip() without its final character when a match exists, else the
empty string. -/
def fIPAWords (search : String → Option String) (l : List Char) :
    Except String (List Char) :=
  .ok (match search (String.mk l) with
       | some g => (stripCh g.data).dropLast
       | none => [])

/-- Series.apply of a derivation over the Result column: a NaN cell has no
split attribute and raises. -/
def applyResult (f : List Char → Except String (List Char)) :
    List (Option String) → Except String (List (Option String))
  | [] => .ok []
  | none :: _ => .error "AttributeError: float object has no attribute split"
  | some s :: rest =>
    andThen (f s.data) fun r =>
    andThen (applyResult f rest) fun rs => .ok (some (String.mk r) :: rs)

/-- One iteration of the derive_dict loop: df[key] = df['Result'].apply(f). -/
def deriveStep (key : String) (f : List Char → Except String (List Char)) (t : Table) :
    Except String Table :=
  andThen (getColUnique "Result" t) fun res =>
  andThen (applyResult f res) fun newData => .ok (setColData key newData t)

/-- Series.replace of the latin letter g by the IPA script g in every cell. -/
def gReplace (c : Option String) : Option String :=
  c.map (fun s => String.mk (s.data.map (fun ch => if ch = 'g' then 'ɡ' else ch)))

/-- The derive_dict loop (keys in dict order) and the final IPA Target /
IPA Actual g-replacements. -/
def deriveAll (cfg : Config) (t : Table) : Except String Table :=
  andThen (deriveStep "IPA Alignment" fIPAAlignment t) fun t1 =>
  andThen (deriveStep "Tiers" fTiers t1) fun t2 =>
  andThen (deriveStep "Notes" fNotes t2) fun t3 =>
  andThen (deriveStep "Orthography" fOrthography t3) fun t4 =>
  andThen (deriveStep "IPA Target Words" fIPATargetWords t4) fun t5 =>
  andThen (deriveStep "IPA Actual Words" fIPAActualWords t5) fun t6 =>
  andThen (deriveStep "IPA Alignment Words" (fIPAWords cfg.ipaWordsSearch) t6) fun t7 =>
  andThen (mapColUnique "IPA Target" gReplace t7) fun t8 =>
  mapColUnique "IPA Actual" gReplace t8

/-- The lang_dict keys mapped to English, in dict order; keys mapped to
Spanish can never change the default, so only these matter. -/
def englishKeys : List String := ["PEEP", "Peep", "peep", "En", "eng"]

/-- Language identification: default Spanish, switched to English when an
English-valued key occurs in the filename. -/
def languageOf (fname : String) : String :=
  if englishKeys.any (fun k => isInfixCh k.data fname.data) then "English" else "Spanish"

/-- Phase extraction: the first non-empty phase_regex match, else 'unknown'. -/
def phaseOf (cfg : Config) (fname : String) : String :=
  ((cfg.phaseMatches fname).find? (fun m => !(m == ""))).getD "unknown"

/-- Participant extraction: findall[0], re-raised on IndexError as an
IndexError with the fixed message 'No participant found in filename'. -/
def participantExtract (ms : List String) : Except String String :=
  match ms with
  | p :: _ => .ok p
  | [] => .error "No participant found in filename"

/-- The per-file body of gen_csv on one candidate csv: renames Record#/Group#,
adds the filename/query/metadata columns, extracts probe from the filename
split on underscore, derives the Result sub-fields, and normalises g. -/
def gen_csv_file (cfg : Config) (fname dirName : String) (df : Table) :
    Except String Table :=
  let t1 := renameCol "Record #" "Record" df
  let t2 := renameCol "Group #" "Group" t1
  let t3 := setCol "filename" (some fname) t2
  let t4 := setCol "Query Source" (some cfg.query) t3
  andThen (pyIdx (cfg.analysisMatches dirName) 0) fun analysisRaw =>
  let analysis := String.mk (analysisRaw.data.filter (fun c => !(c == '/')))
  let t5 := setCol "Analysis" (some analysis) t4
  let phase := phaseOf cfg fname
  let t6 := setCol "Phase" (some phase) t5
  let t7 := setCol "Language" (some (languageOf fname)) t6
  andThen (participantExtract (cfg.participantMatches fname)) fun participant =>
  let t8 := setCol "Participant" (some participant) t7
  let t9 := setCol "Speaker" (some participant) t8
  andThen (pyIdx (splitCh '_' fname.data) 1) fun probeChars =>
  let t10 := setCol "Probe" (some (String.mk probeChars)) t9
  let t11 := setCol "Probe Type" (some phase) t10
  deriveAll cfg t11

/-- A filename survives the skip rules of the gen_csv walk and is a csv. -/
def isCandidate (fname : String) : Bool :=
  !(fname == "desktop.ini") && !(fname == "Report Template.txt") &&
  !(fname == "Report.html") && !(isInfixCh "Summary".data fname.data) &&
  ".csv".data.isSuffixOf fname.data

/-- The composite of the two header renames of gen_csv. -/
def renameRG (n : String) : String :=
  if n = "Record #" then "Record" else if n = "Group #" then "Group" else n

/-- A column labelled m is present and all its occurrences hold the data D. -/
def Untouched (m : String) (D : List (Option String)) (t : Table) : Prop :=
  m ∈ t.names ∧ ∀ c ∈ t.cols, c.1 = m → c.2 = D

/-- A configuration whose extraction rules all succeed on the example file. -/
def cfgEx : Config := ⟨"Q", fun _ => ["Consonants"], fun _ => [], fun _ => ["P001"], fun _ => none⟩

/-- An input table containing a Record# column plus the columns gen_csv needs. -/
def tC6 : Table := ⟨[("Record #", [some "1"]), ("Result", [some "a;b,c,d"]),
  ("IPA Target", [some "t"]), ("IPA Actual", [some "t"])], 1⟩

/-- The table produced by gen_csv on the example input. -/
def c6Out : Table :=
  match gen_csv_file cfgEx "P001_probe.csv" "dirC" tC6 with
  | .ok u => u
  | .error _ => ⟨[], 0⟩

/-- A configuration whose participant rule never matches. -/
def cfg8 : Config := ⟨"Q", fun _ => ["Vowels"], fun _ => [], fun _ => [], fun _ => none⟩

/-- A configuration whose analysis and participant rules always match. -/
def cfg10 : Config := ⟨"Q", fun _ => ["Vowels"], fun _ => [], fun _ => ["x999"], fun _ => none⟩

theorem andThen_ok {α β : Type} {x : Except String α} {f : α → Except String β}
    {b : β} (h : andThen x f = .ok b) : ∃ a, x = .ok a ∧ f a = .ok b := by
  cases x with
  | error e => simp [andThen] at h
  | ok a => exact ⟨a, rfl, h⟩

theorem andThen_ok_arg {α β : Type} {a : α} {f : α → Except String β} :
    andThen (.ok a) f = f a := rfl

theorem renameLoop_eq_map (pairs : List (String × String)) (t : Table) :
    renameLoop pairs t = ⟨t.cols.map (fun c => (applyRenames pairs c.1, c.2)), t.nrows⟩ := by
  induction pairs generalizing t with
  | nil =>
    cases t with
    | mk cols nrows => simp [renameLoop, applyRenames]
  | cons p ps ih =>
    have h1 : renameLoop (p :: ps) t = renameLoop ps (renameStep t p) := rfl
    have h4 : ∀ n, applyRenames (p :: ps) n = applyRenames ps (nameStep n p) :=
      fun _ => rfl
    rw [h1, ih]
    cases t with
    | mk cols nrows =>
      unfold renameStep
      by_cases h2 : p.2 = ""
      · rw [if_pos h2]
        simp only [Table.mk.injEq, and_true]
        apply List.map_congr_left
        intro c _
        rw [h4]
        unfold nameStep
        rw [if_pos h2]
      · rw [if_neg h2]
        by_cases h3 : p.1 ≠ p.2
        · rw [if_pos h3]
          unfold renameCol
          simp only [Table.mk.injEq, and_true, List.map_map]
          apply List.map_congr_left
          intro c _
          rw [h4]
          unfold nameStep
          rw [if_neg h2, if_pos h3]
          by_cases h5 : c.1 = p.2
          · simp [Function.comp, h5]
          · simp [Function.comp, h5]
        · rw [if_neg h3]
          simp only [Table.mk.injEq, and_true]
          apply List.map_congr_left
          intro c _
          rw [h4]
          unfold nameStep
          rw [if_neg h2, if_neg h3]

theorem applyRenames_fix (pairs : List (String × String)) (m : String)
    (h : ∀ q ∈ pairs, q.2 ≠ "" → q.1 ≠ q.2 → m ≠ q.2) :
    applyRenames pairs m = m := by
  induction pairs with
  | nil => rfl
  | cons p ps ih =>
    have h1 : applyRenames (p :: ps) m = applyRenames ps (nameStep m p) := rfl
    rw [h1]
    have hstep : nameStep m p = m := by
      unfold nameStep
      by_cases h2 : p.2 = ""
      · rw [if_pos h2]
      · rw [if_neg h2]
        by_cases h3 : p.1 ≠ p.2
        · rw [if_pos h3]
          have hm : m ≠ p.2 := h p (List.mem_cons_self p ps) h2 h3
          rw [if_neg hm]
        · rw [if_neg h3]
    rw [hstep]
    exact ih (fun q hq => h q (List.mem_cons_of_mem p hq))

theorem applyRenames_eq_spec (pairs : List (String × String))
    (hni : noInterference pairs) (n : String) :
    applyRenames pairs n = specRename pairs n := by
  induction pairs with
  | nil => rfl
  | cons p ps ih =>
    have hni' : noInterference ps := by
      intro a ha ha1 ha2 b hb hb1 hb2
      exact hni a (List.mem_cons_of_mem p ha) ha1 ha2 b (List.mem_cons_of_mem p hb) hb1 hb2
    have h1 : applyRenames (p :: ps) n = applyRenames ps (nameStep n p) := rfl
    by_cases h2 : p.2 = ""
    · rw [h1]
      have hstep : nameStep n p = n := by unfold nameStep; rw [if_pos h2]
      rw [hstep, ih hni']
      unfold specRename
      have hcond : specCond n p = false := by simp [specCond, h2]
      rw [List.find?_cons_of_neg _ (by simp [hcond])]
    · by_cases h3 : p.1 ≠ p.2
      · by_cases h5 : n = p.2
        · rw [h1]
          have hstep : nameStep n p = p.1 := by
            unfold nameStep
            rw [if_neg h2, if_pos h3, if_pos h5]
          rw [hstep]
          have hfix : applyRenames ps p.1 = p.1 := by
            apply applyRenames_fix
            intro q hq hq1 hq2
            exact hni p (List.mem_cons_self p ps) h2 h3 q (List.mem_cons_of_mem p hq) hq1 hq2
          rw [hfix]
          unfold specRename
          have hcond : specCond n p = true := by simp [specCond, h2, h3, h5]
          rw [List.find?_cons_of_pos _ hcond]
          rfl
        · rw [h1]
          have hstep : nameStep n p = n := by
            unfold nameStep
            rw [if_neg h2, if_pos h3, if_neg h5]
          rw [hstep, ih hni']
          unfold specRename
          have hcond : specCond n p = false := by
            have hne : (p.2 == n) = false := by
              simp only [beq_eq_false_iff_ne, ne_eq]
              exact fun he => h5 he.symm
            simp [specCond, hne]
          rw [List.find?_cons_of_neg _ (by simp [hcond])]
      · rw [h1]
        have hstep : nameStep n p = n := by
          unfold nameStep
          rw [if_neg h2, if_neg h3]
        rw [hstep, ih hni']
        unfold specRename
        have h3' : p.1 = p.2 := not_not.mp h3
        have hcond : specCond n p = false := by simp [specCond, h3']
        rw [List.find?_cons_of_neg _ (by simp [hcond])]

theorem mkReindexed_self {l : List (String × List (Option String))} {e : Nat}
    (hnd : (l.map Prod.fst).Nodup) :
    (l.map Prod.fst).map (fun c => (c,
        match l.find? (fun p => p.1 == c) with
        | some p => p.2
        | none => List.replicate e none)) = l := by
  induction l with
  | nil => rfl
  | cons a l ih =>
    simp only [List.map_cons, List.nodup_cons, List.mem_map] at hnd ⊢
    obtain ⟨hna, hnd'⟩ := hnd
    congr 1
    · have hp : (a.1 == a.1) = true := by simp
      simp only [List.find?, hp]
    · have hrest : ∀ c ∈ l.map Prod.fst,
          (c, (match (a :: l).find? (fun p => p.1 == c) with
               | some p => p.2
               | none => List.replicate e none)) =
          (c, (match l.find? (fun p => p.1 == c) with
               | some p => p.2
               | none => List.replicate e none)) := by
        intro c hc
        have hca : (a.1 == c) = false := by
          simp only [beq_eq_false_iff_ne, ne_eq]
          intro he
          obtain ⟨x, hx, hxc⟩ := List.mem_map.mp hc
          exact hna ⟨x, hx, hxc.trans he.symm⟩
        simp only [List.find?, hca]
      rw [List.map_congr_left hrest]
      exact ih hnd'

theorem reindex_ok_of_nodup {cols : List String} {t : Table}
    (hnd : t.names.Nodup) : reindex cols t = .ok (mkReindexed cols t) := by
  unfold reindex
  by_cases h : t.names = cols
  · rw [if_pos h]
    have : mkReindexed cols t = t := by
      cases t with
      | mk l n =>
        unfold mkReindexed
        simp only [Table.mk.injEq, and_true]
        have hc : cols = l.map Prod.fst := by
          rw [← h]; rfl
        subst hc
        exact mkReindexed_self hnd
    rw [this]
  · rw [if_neg h, if_pos hnd]

theorem mkReindexed_names (cols : List String) (t : Table) :
    (mkReindexed cols t).names = cols := by
  unfold mkReindexed Table.names
  rw [List.map_map]
  have h : ∀ c ∈ cols, (Prod.fst ∘ (fun c => ((c : String),
      match t.cols.find? (fun p => p.1 == c) with
      | some p => p.2
      | none => List.replicate t.nrows none))) c = c := fun _ _ => rfl
  rw [List.map_congr_left h, List.map_id']

theorem reindex_ok_names {cols : List String} {t u : Table}
    (h : reindex cols t = .ok u) : u.names = cols := by
  unfold reindex at h
  by_cases h1 : t.names = cols
  · rw [if_pos h1] at h
    cases h
    exact h1
  · rw [if_neg h1] at h
    by_cases h2 : t.names.Nodup
    · rw [if_pos h2] at h
      cases h
      exact mkReindexed_names cols t
    · rw [if_neg h2] at h
      cases h

theorem validLoopGo_const (tlen : Nat) (pairs : List (String × String))
    (h : ∀ p ∈ pairs, p.1 = p.2) : ∀ i v, validLoopGo tlen i pairs v = v := by
  induction pairs with
  | nil => intro i v; rfl
  | cons p ps ih =>
    intro i v
    have h1 : validLoopGo tlen i (p :: ps) v =
        validLoopGo tlen (i + 1) ps
          (if p.1 ≠ p.2 then (if i < tlen then false else v) else v) := rfl
    rw [h1, if_neg (by simp [h p (List.mem_cons_self p ps)])]
    exact ih (fun q hq => h q (List.mem_cons_of_mem p hq)) (i + 1) v

theorem zip_self_mem {α : Type} (l : List α) : ∀ p ∈ l.zip l, p.1 = p.2 := by
  induction l with
  | nil => intro p hp; cases hp
  | cons a t ih =>
    intro p hp
    rw [List.zip_cons_cons] at hp
    rcases List.mem_cons.mp hp with h1 | h1
    · rw [h1]
    · exact ih p h1

theorem validate_self (nt : Table) (target_cols : List String)
    (h : nt.names = target_cols) : validate nt target_cols = .ok true := by
  unfold validate
  rw [if_pos h]
  congr 1
  apply validLoopGo_const
  subst h
  exact zip_self_mem nt.names

theorem renameLoop_names (pairs : List (String × String)) (t : Table) :
    (renameLoop pairs t).names = t.names.map (applyRenames pairs) := by
  rw [renameLoop_eq_map]
  unfold Table.names
  rw [List.map_map, List.map_map]
  rfl

/-- C2: when the rename pairs do not interfere (no canonical destination of a
non-trivial pair is the actual-name source of a non-trivial pair) and the
renamed column labels are duplicate-free, column_match renames each column
whose actual-name entry is non-empty and differs from its canonical-name
entry to the canonical name, then reindexes to exactly the canonical column
order, dropping columns outside the canonical list and filling entirely
empty columns for canonical names absent from the table; the run is valid
and reports the omitted/added diagnostics.  Without the two side conditions
the claim fails: see the counterexample, where the code raises the pandas
duplicate-label ValueError instead of producing the described table. -/
theorem claim_C2 (target_cols actual_cols : List String) (t : Table)
    (hni : noInterference (target_cols.zip actual_cols))
    (hnd : (t.names.map (applyRenames (target_cols.zip actual_cols))).Nodup) :
    column_match target_cols actual_cols t =
      .ok (column_match_spec target_cols actual_cols t, true,
           t.names.filter (fun c => !(actual_cols.contains c)),
           actual_cols.filter (fun c => !(t.names.contains c))) := by
  simp only [column_match]
  have hnd' : (renameLoop (target_cols.zip actual_cols) t).names.Nodup := by
    rw [renameLoop_names]
    exact hnd
  rw [reindex_ok_of_nodup hnd']
  simp only [andThen_ok_arg]
  rw [validate_self _ _ (mkReindexed_names _ _)]
  simp only [andThen_ok_arg]
  have hsp : renameLoop (target_cols.zip actual_cols) t =
      ⟨t.cols.map (fun c => (specRename (target_cols.zip actual_cols) c.1, c.2)), t.nrows⟩ := by
    rw [renameLoop_eq_map]
    simp only [Table.mk.injEq, and_true]
    apply List.map_congr_left
    intro c _
    rw [applyRenames_eq_spec _ hni]
  rw [hsp]
  rfl

theorem claim_C2_witness :
    noInterference ((["A", "B", "C"] : List String).zip ["A", "X", ""])
    ∧ (exTable.names.map (applyRenames ((["A", "B", "C"] : List String).zip ["A", "X", ""]))).Nodup
    ∧ column_match ["A", "B", "C"] ["A", "X", ""] exTable =
        .ok (column_match_spec ["A", "B", "C"] ["A", "X", ""] exTable, true,
             exTable.names.filter (fun c => !((["A", "X", ""] : List String).contains c)),
             (["A", "X", ""] : List String).filter (fun c => !(exTable.names.contains c)))
    ∧ column_match ["A", "B", "C"] ["A", "X", ""] exTable =
        .ok (exAligned, true, [], [""]) :=
  ⟨by decide, by decide, claim_C2 _ _ _ (by decide) (by decide), by decide⟩

theorem claim_C2_counterexample :
    column_match ["A", "B"] ["B", "A"] exSwap =
      .error "ValueError: cannot reindex on an axis with duplicate labels" := by
  decide

/-- C3 (amended): column_match applied a second time with the same key to the
table it produced yields the same table, provided no non-empty actual-name
entry that differs from its canonical entry occurs among the canonical
names; without that proviso the second application can instead raise the
pandas duplicate-label reindex error (see the counterexample). -/
theorem claim_C3 (target_cols actual_cols : List String) (t T1 : Table) (v : Bool)
    (o a : List String)
    (hsafe : ∀ p ∈ target_cols.zip actual_cols, p.2 ≠ "" → p.1 ≠ p.2 → p.2 ∉ target_cols)
    (h : column_match target_cols actual_cols t = .ok (T1, v, o, a)) :
    column_match target_cols actual_cols T1 =
      .ok (T1, true, T1.names.filter (fun c => !(actual_cols.contains c)),
           actual_cols.filter (fun c => !(T1.names.contains c))) := by
  simp only [column_match] at h
  obtain ⟨nt, hre, h2⟩ := andThen_ok h
  obtain ⟨valid, hval, h3⟩ := andThen_ok h2
  have hnt : nt = T1 := by
    injection h3 with h4
    exact congrArg Prod.fst h4
  have hT1names : T1.names = target_cols := by
    rw [← hnt]
    exact reindex_ok_names hre
  have hfix : ∀ n ∈ target_cols, applyRenames (target_cols.zip actual_cols) n = n := by
    intro n hn
    apply applyRenames_fix
    intro q hq hq1 hq2 he
    exact hsafe q hq hq1 hq2 (he ▸ hn)
  have hrl : renameLoop (target_cols.zip actual_cols) T1 = T1 := by
    rw [renameLoop_eq_map]
    cases hT : T1 with
    | mk cols n =>
      simp only [Table.mk.injEq, and_true]
      have hmem : ∀ c ∈ cols, ((applyRenames (target_cols.zip actual_cols) c.1, c.2) :
          String × List (Option String)) = c := by
        intro c hc
        have hin : c.1 ∈ target_cols := by
          rw [← hT1names, hT]
          exact List.mem_map_of_mem Prod.fst hc
        rw [hfix c.1 hin]
      rw [List.map_congr_left hmem, List.map_id']
  simp only [column_match]
  rw [hrl]
  have hreT1 : reindex target_cols T1 = .ok T1 := by
    unfold reindex
    rw [if_pos hT1names]
  rw [hreT1]
  simp only [andThen_ok_arg]
  rw [validate_self _ _ hT1names]
  simp only [andThen_ok_arg]

theorem claim_C3_witness :
    (∀ p ∈ (["A", "B", "C"] : List String).zip ["A", "X", ""],
        p.2 ≠ "" → p.1 ≠ p.2 → p.2 ∉ (["A", "B", "C"] : List String))
    ∧ column_match ["A", "B", "C"] ["A", "X", ""] exTable = .ok (exAligned, true, [], [""])
    ∧ column_match ["A", "B", "C"] ["A", "X", ""] exAligned =
        .ok (exAligned, true, ["B", "C"], ["X", ""]) := by
  refine ⟨by decide, by decide, ?_⟩
  have h := claim_C3 ["A", "B", "C"] ["A", "X", ""] exTable exAligned true [] [""]
    (by decide) (by decide)
  rw [h]
  decide

theorem claim_C3_counterexample :
    column_match ["A", "B"] ["B", ""] cxTable =
      .ok (⟨[("A", [some "x"]), ("B", [(none : Option String)])], 1⟩, true, [], [""])
    ∧ column_match ["A", "B"] ["B", ""] ⟨[("A", [some "x"]), ("B", [(none : Option String)])], 1⟩
      = .error "ValueError: cannot reindex on an axis with duplicate labels" := by
  decide

/-- C4: whenever realignment (rename loop plus reindex) succeeds, column_match
returns the realigned table for writing, with the validity flag true; the
validation block never turns a successful realignment into a failure and
never blocks the output.  (After a successful reindex the column list equals
the canonical list, so the validation warnings cannot fire at all.) -/
theorem claim_C4 (target_cols actual_cols : List String) (t nt : Table)
    (h : reindex target_cols (renameLoop (target_cols.zip actual_cols) t) = .ok nt) :
    column_match target_cols actual_cols t =
      .ok (nt, true, t.names.filter (fun c => !(actual_cols.contains c)),
           actual_cols.filter (fun c => !(t.names.contains c))) := by
  simp only [column_match]
  rw [h]
  simp only [andThen_ok_arg]
  rw [validate_self _ _ (reindex_ok_names h)]
  simp only [andThen_ok_arg]

theorem claim_C4_witness :
    reindex ["A", "B", "C"] (renameLoop ((["A", "B", "C"] : List String).zip ["A", "X", ""]) exTable)
      = .ok exAligned
    ∧ column_match ["A", "B", "C"] ["A", "X", ""] exTable = .ok (exAligned, true, [], [""]) := by
  refine ⟨by decide, ?_⟩
  have h := claim_C4 ["A", "B", "C"] ["A", "X", ""] exTable exAligned (by decide)
  rw [h]
  decide

/-- C1 (amended): for every row, Accuracy=1 implies Substitution=0 and
Deletion=1 implies Substitution=0 (stated as vanishing products); the
remaining pairwise claim fails: Accuracy and Deletion are both 1 whenever
IPA Target equals IPA Actual and that value is itself a deletion marker,
as the counterexample shows at Target=Actual=null-phone. -/
theorem claim_C1 (tgt act : Option String) :
    rowAccuracy tgt act * rowSubstitution tgt act = 0
    ∧ rowDeletion act * rowSubstitution tgt act = 0 := by
  unfold rowAccuracy rowDeletion rowSubstitution substitution_mask
  constructor
  · cases h1 : accurate_mask tgt act
    · simp
    · have h2 : inaccurate_mask tgt act = false := by
        cases tgt <;> cases act <;> simp_all [accurate_mask, inaccurate_mask, bne]
      simp [h2]
  · cases h3 : deletion_mask act
    · simp [h3]
    · simp [h3]

theorem claim_C1_counterexample :
    rowAccuracy (some "∅") (some "∅") = 1 ∧ rowDeletion (some "∅") = 1 := by
  decide

/-- C5 (amended): Deletion = 1 exactly when IPA Actual is null (NaN), the
empty string, a single space, or the null-phone symbol.  A whitespace-only
value of any other shape is NOT a deletion, contrary to the claim: see the
counterexample with a two-space Actual value. -/
theorem claim_C5 (act : Option String) :
    rowDeletion act = 1 ↔
      (act = none ∨ act = some "" ∨ act = some " " ∨ act = some "∅") := by
  cases act with
  | none => simp [rowDeletion, deletion_mask]
  | some s =>
    cases hd : deletion_mask (some s)
    · simp only [rowDeletion, hd, if_false]
      simp only [deletion_mask, Bool.or_eq_false_iff, beq_eq_false_iff_ne, ne_eq] at hd
      simp [hd.1.1, hd.1.2, hd.2]
    · simp only [rowDeletion, hd, if_true]
      simp only [deletion_mask, Bool.or_eq_true, beq_iff_eq] at hd
      rcases hd with (h | h) | h <;> simp [h]

theorem claim_C5_counterexample :
    rowDeletion (some "  ") = 0
    ∧ ("  " : String).data.all (fun c => c == ' ') = true
    ∧ ("  " : String) ≠ "" := by
  decide

theorem enumFrom_map_drop (rest : List (List String)) :
    ∀ n, n ≠ 0 → (rest.enumFrom n).map (fun p => if p.1 = 0 then p.2 else p.2.drop 1)
      = rest.map (fun g => g.drop 1) := by
  induction rest with
  | nil => intro n _; rfl
  | cons g gs ih =>
    intro n hn
    simp only [List.enumFrom_cons, List.map_cons]
    rw [if_neg hn, ih (n + 1) (Nat.succ_ne_zero n)]

theorem merge_csv_cons (f : List String) (rest : List (List String)) :
    merge_csv (f :: rest) = f ++ (rest.map (fun g => g.drop 1)).flatten := by
  unfold merge_csv
  rw [List.enum_cons, List.map_cons, List.flatten_cons,
    enumFrom_map_drop rest 1 Nat.one_ne_zero]
  rfl

/-- C7: for every nonempty selection of staged files sharing header h and
whose data lines never equal h, the concatenation keeps the header of only
the first file: its length is the sum of the files' line counts minus one
discarded header line per file after the first, and the header occurs
exactly once. -/
theorem claim_C7 (files : List (List String)) (h : String)
    (hne : files ≠ [])
    (hhead : ∀ f ∈ files, f.head? = some h)
    (hdata : ∀ f ∈ files, ∀ l ∈ f.tail, l ≠ h) :
    (merge_csv files).length = (files.map List.length).sum - (files.length - 1)
    ∧ (merge_csv files).count h = 1 := by
  cases files with
  | nil => exact absurd rfl hne
  | cons f rest =>
    rw [merge_csv_cons]
    have hfne : ∀ g ∈ (f :: rest), ∃ gt, g = h :: gt := by
      intro g hg
      cases g with
      | nil =>
        have := hhead [] hg
        simp at this
      | cons a gt =>
        have := hhead (a :: gt) hg
        simp only [List.head?_cons, Option.some.injEq] at this
        exact ⟨gt, by rw [this]⟩
    have hjoin_len : ∀ (gs : List (List String)), (∀ g ∈ gs, g ≠ []) →
        ((gs.map (fun g => g.drop 1)).flatten).length + gs.length = (gs.map List.length).sum := by
      intro gs
      induction gs with
      | nil => intro _; rfl
      | cons g gt ih =>
        intro hne'
        simp only [List.map_cons, List.flatten_cons, List.length_append, List.length_cons,
          List.sum_cons, List.length_drop]
        have hg1 : 1 ≤ g.length := by
          have := hne' g (List.mem_cons_self g gt)
          cases g with
          | nil => exact absurd rfl this
          | cons _ _ => simp
        have := ih (fun g' hg' => hne' g' (List.mem_cons_of_mem g hg'))
        omega
    have hlen : (f ++ (rest.map (fun g => g.drop 1)).flatten).length =
        ((f :: rest).map List.length).sum - ((f :: rest).length - 1) := by
      have hrest := hjoin_len rest (by
        intro g hg
        obtain ⟨gt, hgt⟩ := hfne g (List.mem_cons_of_mem f hg)
        rw [hgt]
        exact List.cons_ne_nil h gt)
      simp only [List.length_append, List.map_cons, List.sum_cons, List.length_cons]
      omega
    refine ⟨hlen, ?_⟩
    obtain ⟨ft, hft⟩ := hfne f (List.mem_cons_self f rest)
    rw [List.count_append]
    have hcf : f.count h = 1 := by
      rw [hft, List.count_cons_self]
      have : ft.count h = 0 := by
        rw [List.count_eq_zero]
        intro hmem
        refine hdata f (List.mem_cons_self f rest) h ?_ rfl
        rw [hft, List.tail_cons]
        exact hmem
      rw [this]
    have hcj : ((rest.map (fun g => g.drop 1)).flatten).count h = 0 := by
      rw [List.count_eq_zero]
      intro hmem
      obtain ⟨s, hs, hhs⟩ := List.mem_flatten.mp hmem
      obtain ⟨g, hg, hgs⟩ := List.mem_map.mp hs
      have hst : s = g.tail := by rw [← hgs, List.drop_one]
      exact hdata g (List.mem_cons_of_mem f hg) h (hst ▸ hhs) rfl
    rw [hcf, hcj]

theorem claim_C7_witness :
    (merge_csv [["h", "a"], ["h", "b"], ["h"]]).length
        = (([["h", "a"], ["h", "b"], ["h"]].map List.length).sum)
          - (([["h", "a"], ["h", "b"], ["h"]] : List (List String)).length - 1)
    ∧ (merge_csv [["h", "a"], ["h", "b"], ["h"]]).count "h" = 1 :=
  claim_C7 [["h", "a"], ["h", "b"], ["h"]] "h" (by decide) (by decide) (by decide)

theorem splitChAux_no_sep (sep : Char) :
    ∀ (l acc : List Char), sep ∉ l → splitChAux sep l acc = [acc.reverse ++ l] := by
  intro l
  induction l with
  | nil => intro acc _; simp [splitChAux]
  | cons c rest ih =>
    intro acc hmem
    have hc : ¬ c = sep := fun he => hmem (he ▸ List.mem_cons_self c rest)
    unfold splitChAux
    rw [if_neg hc, ih (c :: acc) (fun hm => hmem (List.mem_cons_of_mem c hm))]
    simp

theorem splitCh_no_sep (sep : Char) (l : List Char) (h : sep ∉ l) :
    splitCh sep l = [l] := by
  unfold splitCh
  rw [splitChAux_no_sep sep l [] h]
  rfl

theorem extTrans {A B C : List String} (h1 : ∃ s, B = A ++ s) (h2 : ∃ s, C = B ++ s) :
    ∃ s, C = A ++ s := by
  obtain ⟨s1, hs1⟩ := h1
  obtain ⟨s2, hs2⟩ := h2
  exact ⟨s1 ++ s2, by rw [hs2, hs1, List.append_assoc]⟩

theorem map_fst_eq {α β : Type} (f : α × β → α × β) (hf : ∀ c, (f c).1 = c.1)
    (l : List (α × β)) : (l.map f).map Prod.fst = l.map Prod.fst := by
  rw [List.map_map]
  apply List.map_congr_left
  intro c _
  rw [Function.comp_apply, hf]

theorem renameCol_nrows (o n' : String) (t : Table) :
    (renameCol o n' t).nrows = t.nrows := rfl

theorem setColData_nrows (n : String) (data : List (Option String)) (t : Table) :
    (setColData n data t).nrows = t.nrows := by
  unfold setColData
  split <;> rfl

theorem setCol_nrows (n : String) (v : Option String) (t : Table) :
    (setCol n v t).nrows = t.nrows := setColData_nrows n (List.replicate t.nrows v) t

theorem setColData_names_cases (n : String) (data : List (Option String)) (t : Table) :
    (setColData n data t).names = t.names
    ∨ (setColData n data t).names = t.names ++ [n] := by
  unfold setColData Table.names
  by_cases hany : t.cols.any (fun c => c.1 == n)
  · left
    rw [if_pos hany]
    apply map_fst_eq
    intro c
    by_cases hcn : (c.1 == n) = true
    · rw [if_pos hcn]
    · rw [if_neg hcn]
  · right
    rw [if_neg hany, List.map_append]
    rfl

theorem setColData_ext (n : String) (data : List (Option String)) (t : Table) :
    ∃ s, (setColData n data t).names = t.names ++ s := by
  rcases setColData_names_cases n data t with h | h
  · exact ⟨[], by rw [h, List.append_nil]⟩
  · exact ⟨[n], h⟩

theorem setCol_ext (n : String) (v : Option String) (t : Table) :
    ∃ s, (setCol n v t).names = t.names ++ s :=
  setColData_ext n (List.replicate t.nrows v) t

theorem setColData_mem {n : String} {data : List (Option String)} {t : Table} :
    ∀ c ∈ (setColData n data t).cols,
      (c.1 = n ∧ c.2 = data) ∨ (c ∈ t.cols ∧ c.1 ≠ n) := by
  intro c hc
  unfold setColData at hc
  by_cases hany : t.cols.any (fun c => c.1 == n)
  · rw [if_pos hany] at hc
    obtain ⟨c0, hc0, hgc⟩ := List.mem_map.mp hc
    by_cases hcn : (c0.1 == n) = true
    · left
      rw [if_pos hcn] at hgc
      cases hgc
      exact ⟨beq_iff_eq.mp hcn, rfl⟩
    · right
      rw [if_neg hcn] at hgc
      cases hgc
      exact ⟨hc0, fun he => hcn (by rw [he]; simp)⟩
  · rw [if_neg hany] at hc
    rcases List.mem_append.mp hc with h1 | h1
    · right
      refine ⟨h1, fun he => ?_⟩
      exact hany (List.any_eq_true.mpr ⟨c, h1, by rw [he]; simp⟩)
    · left
      have h2 : c = (n, data) := List.mem_singleton.mp h1
      rw [h2]
      exact ⟨rfl, rfl⟩

theorem setColData_self_mem {n : String} {data : List (Option String)} {t : Table} :
    n ∈ (setColData n data t).names := by
  unfold setColData Table.names
  by_cases hany : t.cols.any (fun c => c.1 == n)
  · rw [if_pos hany]
    obtain ⟨c0, hc0, hcn⟩ := List.any_eq_true.mp hany
    refine List.mem_map.mpr
      ⟨(if (c0.1 == n) = true then (c0.1, data) else c0), List.mem_map_of_mem _ hc0, ?_⟩
    rw [if_pos hcn]
    exact beq_iff_eq.mp hcn
  · rw [if_neg hany, List.map_append]
    exact List.mem_append_right _ (by simp)

theorem setColData_untouched_self {n : String} {data : List (Option String)} {t : Table} :
    Untouched n data (setColData n data t) := by
  constructor
  · exact setColData_self_mem
  · intro c hc hcn
    rcases setColData_mem c hc with ⟨_, h2⟩ | ⟨_, h2⟩
    · exact h2
    · exact absurd hcn h2

theorem setCol_untouched_self {n : String} {v : Option String} {t : Table} :
    Untouched n (List.replicate t.nrows v) (setCol n v t) := setColData_untouched_self

theorem untouched_setColData {m : String} {D : List (Option String)} {n : String}
    {data : List (Option String)} {t : Table} (hn : n ≠ m) (h : Untouched m D t) :
    Untouched m D (setColData n data t) := by
  obtain ⟨hmem, hdat⟩ := h
  constructor
  · rcases setColData_names_cases n data t with hN | hN
    · rw [hN]; exact hmem
    · rw [hN]; exact List.mem_append_left _ hmem
  · intro c hc hcm
    rcases setColData_mem c hc with ⟨h1, _⟩ | ⟨h1, h2⟩
    · exact absurd (h1.symm.trans hcm) hn
    · exact hdat c h1 hcm

theorem untouched_setCol {m : String} {D : List (Option String)} {n : String}
    {v : Option String} {t : Table} (hn : n ≠ m) (h : Untouched m D t) :
    Untouched m D (setCol n v t) := untouched_setColData hn h

theorem mapColUnique_ok {n : String} {g : Option String → Option String} {t u : Table}
    (h : mapColUnique n g t = .ok u) : u.names = t.names ∧ u.nrows = t.nrows := by
  unfold mapColUnique at h
  cases hf : t.cols.filter (fun c => c.1 == n) with
  | nil =>
    rw [hf] at h
    exact Except.noConfusion h
  | cons c0 cs =>
    cases cs with
    | cons c1 cs' =>
      rw [hf] at h
      exact Except.noConfusion h
    | nil =>
      rw [hf] at h
      cases h
      refine ⟨?_, rfl⟩
      apply map_fst_eq
      intro c
      by_cases hcn : (c.1 == n) = true
      · rw [if_pos hcn]
      · rw [if_neg hcn]

theorem mapColUnique_untouched {m : String} {D : List (Option String)} {n : String}
    {g : Option String → Option String} {t u : Table} (hn : n ≠ m)
    (h : mapColUnique n g t = .ok u) (hu : Untouched m D t) : Untouched m D u := by
  obtain ⟨hmem, hdat⟩ := hu
  unfold mapColUnique at h
  cases hf : t.cols.filter (fun c => c.1 == n) with
  | nil =>
    rw [hf] at h
    exact Except.noConfusion h
  | cons c0 cs =>
    cases cs with
    | cons c1 cs' =>
      rw [hf] at h
      exact Except.noConfusion h
    | nil =>
      rw [hf] at h
      cases h
      constructor
      · show m ∈ (t.cols.map _).map Prod.fst
        rw [map_fst_eq _ (fun c => by
          by_cases hcn : (c.1 == n) = true
          · rw [if_pos hcn]
          · rw [if_neg hcn])]
        exact hmem
      · intro c hc hcm
        obtain ⟨c2, hc2, hgc⟩ := List.mem_map.mp hc
        by_cases hcn : (c2.1 == n) = true
        · rw [if_pos hcn] at hgc
          cases hgc
          exact absurd ((beq_iff_eq.mp hcn).symm.trans hcm) hn
        · rw [if_neg hcn] at hgc
          cases hgc
          exact hdat _ hc2 hcm

theorem deriveStep_ext {key : String} {f : List Char → Except String (List Char)}
    {t u : Table} (h : deriveStep key f t = .ok u) : ∃ s, u.names = t.names ++ s := by
  unfold deriveStep at h
  obtain ⟨res, _, h⟩ := andThen_ok h
  obtain ⟨nd, _, h⟩ := andThen_ok h
  cases h
  exact setColData_ext key nd t

theorem deriveStep_untouched {m : String} {D : List (Option String)} {key : String}
    {f : List Char → Except String (List Char)} {t u : Table} (hk : key ≠ m)
    (h : deriveStep key f t = .ok u) (hu : Untouched m D t) : Untouched m D u := by
  unfold deriveStep at h
  obtain ⟨res, _, h⟩ := andThen_ok h
  obtain ⟨nd, _, h⟩ := andThen_ok h
  cases h
  exact untouched_setColData hk hu

theorem deriveAll_ext {cfg : Config} {t u : Table} (h : deriveAll cfg t = .ok u) :
    ∃ s, u.names = t.names ++ s := by
  unfold deriveAll at h
  obtain ⟨t1, h1, h⟩ := andThen_ok h
  obtain ⟨t2, h2, h⟩ := andThen_ok h
  obtain ⟨t3, h3, h⟩ := andThen_ok h
  obtain ⟨t4, h4, h⟩ := andThen_ok h
  obtain ⟨t5, h5, h⟩ := andThen_ok h
  obtain ⟨t6, h6, h⟩ := andThen_ok h
  obtain ⟨t7, h7, h⟩ := andThen_ok h
  obtain ⟨t8, h8, h⟩ := andThen_ok h
  have E2 := extTrans (deriveStep_ext h1) (deriveStep_ext h2)
  have E3 := extTrans E2 (deriveStep_ext h3)
  have E4 := extTrans E3 (deriveStep_ext h4)
  have E5 := extTrans E4 (deriveStep_ext h5)
  have E6 := extTrans E5 (deriveStep_ext h6)
  have E7 := extTrans E6 (deriveStep_ext h7)
  obtain ⟨s, hs⟩ := E7
  exact ⟨s, by rw [(mapColUnique_ok h).1, (mapColUnique_ok h8).1, hs]⟩

theorem deriveAll_untouched {m : String} {D : List (Option String)} {cfg : Config}
    {t u : Table}
    (k1 : "IPA Alignment" ≠ m) (k2 : "Tiers" ≠ m) (k3 : "Notes" ≠ m)
    (k4 : "Orthography" ≠ m) (k5 : "IPA Target Words" ≠ m)
    (k6 : "IPA Actual Words" ≠ m) (k7 : "IPA Alignment Words" ≠ m)
    (k8 : "IPA Target" ≠ m) (k9 : "IPA Actual" ≠ m)
    (h : deriveAll cfg t = .ok u) (hu : Untouched m D t) : Untouched m D u := by
  unfold deriveAll at h
  obtain ⟨t1, h1, h⟩ := andThen_ok h
  obtain ⟨t2, h2, h⟩ := andThen_ok h
  obtain ⟨t3, h3, h⟩ := andThen_ok h
  obtain ⟨t4, h4, h⟩ := andThen_ok h
  obtain ⟨t5, h5, h⟩ := andThen_ok h
  obtain ⟨t6, h6, h⟩ := andThen_ok h
  obtain ⟨t7, h7, h⟩ := andThen_ok h
  obtain ⟨t8, h8, h⟩ := andThen_ok h
  exact mapColUnique_untouched k9 h (mapColUnique_untouched k8 h8
    (deriveStep_untouched k7 h7 (deriveStep_untouched k6 h6
    (deriveStep_untouched k5 h5 (deriveStep_untouched k4 h4
    (deriveStep_untouched k3 h3 (deriveStep_untouched k2 h2
    (deriveStep_untouched k1 h1 hu))))))))

theorem renameCol_names (o n' : String) (t : Table) :
    (renameCol o n' t).names = t.names.map (fun mm => if mm = o then n' else mm) := by
  unfold renameCol Table.names
  rw [List.map_map, List.map_map]
  apply List.map_congr_left
  intro c _
  rw [Function.comp_apply, Function.comp_apply]
  by_cases h : c.1 = o
  · rw [if_pos h, if_pos h]
  · rw [if_neg h, if_neg h]

theorem rename2_names (t : Table) :
    (renameCol "Group #" "Group" (renameCol "Record #" "Record" t)).names
      = t.names.map renameRG := by
  rw [renameCol_names, renameCol_names, List.map_map]
  apply List.map_congr_left
  intro mm _
  rw [Function.comp_apply]
  unfold renameRG
  by_cases h1 : mm = "Record #"
  · rw [if_pos h1, if_pos h1, if_neg (by decide : ¬ ("Record" : String) = "Group #")]
  · rw [if_neg h1, if_neg h1]

/-- C6 (amended): gen_csv never drops or reorders the columns of the input
table and only appends new ones at the right end, but it does rename two of
them: Record# to Record and Group# to Group; every other input column keeps
its name.  The unqualified never-renames claim is refuted by the
counterexample with a Record# input column. -/
theorem claim_C6 (cfg : Config) (fname dirName : String) (t out : Table)
    (h : gen_csv_file cfg fname dirName t = .ok out) :
    ∃ s, out.names = t.names.map renameRG ++ s := by
  simp only [gen_csv_file] at h
  obtain ⟨analysisRaw, h1, h⟩ := andThen_ok h
  obtain ⟨participant, h2, h⟩ := andThen_ok h
  obtain ⟨probeChars, h3, h⟩ := andThen_ok h
  refine extTrans ?_ (deriveAll_ext h)
  refine extTrans ?_ (setCol_ext _ _ _)
  refine extTrans ?_ (setCol_ext _ _ _)
  refine extTrans ?_ (setCol_ext _ _ _)
  refine extTrans ?_ (setCol_ext _ _ _)
  refine extTrans ?_ (setCol_ext _ _ _)
  refine extTrans ?_ (setCol_ext _ _ _)
  refine extTrans ?_ (setCol_ext _ _ _)
  refine extTrans ?_ (setCol_ext _ _ _)
  refine extTrans ?_ (setCol_ext _ _ _)
  exact ⟨[], by rw [rename2_names, List.append_nil]⟩

theorem metaPhase_untouched (ph prb part lang : Option String) (t5 : Table) :
    Untouched "Phase" (List.replicate t5.nrows ph)
      (setCol "Probe Type" ph (setCol "Probe" prb (setCol "Speaker" part
        (setCol "Participant" part (setCol "Language" lang (setCol "Phase" ph t5))))))
    ∧ Untouched "Probe Type" (List.replicate t5.nrows ph)
      (setCol "Probe Type" ph (setCol "Probe" prb (setCol "Speaker" part
        (setCol "Participant" part (setCol "Language" lang (setCol "Phase" ph t5)))))) := by
  constructor
  · apply untouched_setCol (by decide : ("Probe Type" : String) ≠ "Phase")
    apply untouched_setCol (by decide : ("Probe" : String) ≠ "Phase")
    apply untouched_setCol (by decide : ("Speaker" : String) ≠ "Phase")
    apply untouched_setCol (by decide : ("Participant" : String) ≠ "Phase")
    apply untouched_setCol (by decide : ("Language" : String) ≠ "Phase")
    exact setCol_untouched_self
  · have h10 : (setCol "Probe" prb (setCol "Speaker" part (setCol "Participant" part
        (setCol "Language" lang (setCol "Phase" ph t5))))).nrows = t5.nrows := by
      simp only [setCol_nrows]
    have hself := @setCol_untouched_self "Probe Type" ph
      (setCol "Probe" prb (setCol "Speaker" part (setCol "Participant" part
        (setCol "Language" lang (setCol "Phase" ph t5)))))
    rw [h10] at hself
    exact hself

theorem gen_csv_file_phase {cfg : Config} {fname dirName : String} {t out : Table}
    (h : gen_csv_file cfg fname dirName t = .ok out) :
    Untouched "Phase" (List.replicate t.nrows (some (phaseOf cfg fname))) out
    ∧ Untouched "Probe Type" (List.replicate t.nrows (some (phaseOf cfg fname))) out := by
  simp only [gen_csv_file] at h
  obtain ⟨analysisRaw, h1, h⟩ := andThen_ok h
  obtain ⟨participant, h2, h⟩ := andThen_ok h
  obtain ⟨probeChars, h3, h⟩ := andThen_ok h
  have hmeta := metaPhase_untouched (some (phaseOf cfg fname)) (some (String.mk probeChars))
    (some participant) (some (languageOf fname))
    (setCol "Analysis" (some (String.mk (analysisRaw.data.filter (fun c => !(c == '/')))))
      (setCol "Query Source" (some cfg.query)
        (setCol "filename" (some fname)
          (renameCol "Group #" "Group" (renameCol "Record #" "Record" t)))))
  have hnr : (setCol "Analysis" (some (String.mk (analysisRaw.data.filter (fun c => !(c == '/')))))
      (setCol "Query Source" (some cfg.query)
        (setCol "filename" (some fname)
          (renameCol "Group #" "Group" (renameCol "Record #" "Record" t))))).nrows = t.nrows := by
    simp only [setCol_nrows, renameCol_nrows]
  rw [hnr] at hmeta
  constructor
  · exact deriveAll_untouched (by decide) (by decide) (by decide) (by decide) (by decide)
      (by decide) (by decide) (by decide) (by decide) h hmeta.1
  · exact deriveAll_untouched (by decide) (by decide) (by decide) (by decide) (by decide)
      (by decide) (by decide) (by decide) (by decide) h hmeta.2

/-- C9: in every table produced by gen_csv, the Probe Type column equals the
Phase column cell for cell: both are broadcast copies of the same extracted
phase value, and no later step touches either column. -/
theorem claim_C9 (cfg : Config) (fname dirName : String) (t out : Table)
    (h : gen_csv_file cfg fname dirName t = .ok out) :
    "Phase" ∈ out.names ∧ "Probe Type" ∈ out.names
    ∧ ∀ c ∈ out.cols, c.1 = "Probe Type" → ∀ c' ∈ out.cols, c'.1 = "Phase" → c.2 = c'.2 := by
  obtain ⟨hP, hPT⟩ := gen_csv_file_phase h
  refine ⟨hP.1, hPT.1, ?_⟩
  intro c hc hcp c' hc' hcp'
  rw [hPT.2 c hc hcp, hP.2 c' hc' hcp']

/-- C8 (amended): when the configured participant rule yields no match on a
candidate filename (and the analysis extraction has succeeded), gen_csv
raises an IndexError with the fixed message, which aborts the run; the
message does not include the offending filename (see the counterexample).
When the optional phase rule yields no (non-empty) match, the run continues
and every Phase cell holds the default value unknown. -/
theorem claim_C8 (cfg : Config) (fname dirName : String) (t : Table) :
    (cfg.analysisMatches dirName ≠ [] → cfg.participantMatches fname = [] →
      gen_csv_file cfg fname dirName t = .error "No participant found in filename")
    ∧ (∀ out : Table, (∀ mm ∈ cfg.phaseMatches fname, mm = "") →
        gen_csv_file cfg fname dirName t = .ok out →
        ∀ c ∈ out.cols, c.1 = "Phase" → c.2 = List.replicate t.nrows (some "unknown")) := by
  constructor
  · intro hA hP
    simp only [gen_csv_file]
    obtain ⟨a, as, ha⟩ := List.exists_cons_of_ne_nil hA
    rw [ha, hP]
    rfl
  · intro out hPh h
    have hphase : phaseOf cfg fname = "unknown" := by
      unfold phaseOf
      have hnone : (cfg.phaseMatches fname).find? (fun m => !(m == "")) = none := by
        rw [List.find?_eq_none]
        intro x hx
        simp [hPh x hx]
      rw [hnone]
      rfl
    have hup := (gen_csv_file_phase h).1
    rw [hphase] at hup
    exact hup.2

/-- C10: a candidate csv filename with no underscore makes the probe
extraction split fail with an uncaught IndexError even when the analysis
and participant extraction rules both succeed. -/
theorem claim_C10 (cfg : Config) (fname dirName : String) (t : Table)
    (_hcand : isCandidate fname = true)
    (hu : '_' ∉ fname.data)
    (hA : cfg.analysisMatches dirName ≠ [])
    (hP : cfg.participantMatches fname ≠ []) :
    gen_csv_file cfg fname dirName t = .error "IndexError: list index out of range" := by
  simp only [gen_csv_file]
  obtain ⟨a, as, ha⟩ := List.exists_cons_of_ne_nil hA
  obtain ⟨p, ps, hp⟩ := List.exists_cons_of_ne_nil hP
  rw [ha, hp, splitCh_no_sep '_' fname.data hu]
  rfl

theorem claim_C6_witness : ∃ s, c6Out.names = tC6.names.map renameRG ++ s :=
  claim_C6 cfgEx "P001_probe.csv" "dirC" tC6 c6Out (by decide)

theorem claim_C6_counterexample :
    "Record #" ∈ tC6.names
    ∧ gen_csv_file cfgEx "P001_probe.csv" "dirC" tC6 = .ok c6Out
    ∧ "Record #" ∉ c6Out.names
    ∧ "Record" ∈ c6Out.names := by
  decide

theorem claim_C9_witness :
    "Phase" ∈ c6Out.names ∧ "Probe Type" ∈ c6Out.names
    ∧ ∀ c ∈ c6Out.cols, c.1 = "Probe Type" → ∀ c' ∈ c6Out.cols, c'.1 = "Phase" → c.2 = c'.2 :=
  claim_C9 cfgEx "P001_probe.csv" "dirC" tC6 c6Out (by decide)

theorem claim_C8_witness :
    gen_csv_file cfg8 "XYZ.csv" "d" (⟨[], 0⟩ : Table)
        = .error "No participant found in filename"
    ∧ (∀ c ∈ c6Out.cols, c.1 = "Phase" → c.2 = List.replicate tC6.nrows (some "unknown")) := by
  constructor
  · exact (claim_C8 cfg8 "XYZ.csv" "d" ⟨[], 0⟩).1 (by decide) (by decide)
  · exact (claim_C8 cfgEx "P001_probe.csv" "dirC" tC6).2 c6Out (by decide) (by decide)

theorem claim_C8_counterexample :
    gen_csv_file cfg8 "XYZ.csv" "d" (⟨[], 0⟩ : Table)
        = .error "No participant found in filename"
    ∧ isInfixCh ("XYZ.csv" : String).data
        ("No participant found in filename" : String).data = false := by
  decide

theorem claim_C10_witness :
    isCandidate "file.csv" = true
    ∧ '_' ∉ ("file.csv" : String).data
    ∧ gen_csv_file cfg10 "file.csv" "d" (⟨[], 0⟩ : Table)
        = .error "IndexError: list index out of range" :=
  ⟨by decide, by decide,
    claim_C10 cfg10 "file.csv" "d" ⟨[], 0⟩ (by decide) (by decide) (by decide) (by decide)⟩

end Phon
